import Mathlib

/-!
Verification development for the breadwinner worker.

The definitions below are a shallow embedding of the chunk-processing
worker (`src/BreadwinnerWorker.worker.ts`) and the parts of the FHE module
it uses. Cryptographic handles are modelled symbolically: a value records
how it was produced (loaded ciphertext, encoded plaintext, evaluator
result), and the worker's `Map` of operands is an association list with
JavaScript `Map` semantics (`set` replaces in place or appends, `get`
returns the first binding). A run of `processChunk` is recorded as its
outcome together with the log of every value ever inserted into the map,
the final map, the list of released handles and whether
`FHEModule.deallocate` was invoked.
-/

/-- Scheme tag carried by the parsed JSON schema (`SchemeType` in `index.ts`). -/
inductive SchemeType
| BGV
| CKKS
deriving DecidableEq, Repr

/-- Operand type tags (`OperandTypes` in the repository). -/
inductive OperandTypes
| NUMBER
| ARRAY
| NONE
deriving DecidableEq, Repr

/-- Runtime value of `operation.type`. The TypeScript cast performs no
validation, so besides the four enum members any other numeric code can
appear at runtime; `other` stands for such an unrecognized code. -/
inductive OpCode
| ADD
| SUBTRACT
| MULTIPLY
| EXPONENTIATION
| other (code : Int)
deriving DecidableEq, Repr

/-- Keys of `operandsAndResultsMap`: JavaScript string keys (column and
literal entries) or number keys (operation results). -/
abbrev MapKey := Sum String Int

/-- Symbolic cryptographic handle: a ciphertext loaded from wire data, a
plaintext encoded under a scheme, a binary evaluator result, or an
exponentiation result. -/
inductive FHEVal
| cipherLoad (data : String)
| plainEncode (scheme : SchemeType) (values : List Rat)
| opNode (kind : OpCode) (l r : FHEVal)
| powVal (base : FHEVal) (exp : Nat)
deriving DecidableEq, Repr

/-- Errors a chunk-processing run can end in. `syntaxError` is the
JavaScript `SyntaxError` thrown by `JSON.parse`; `typeError` is the
`TypeError` raised when `undefined` (a missing map entry or list element)
is dereferenced. The remaining constructors name the error classes of the
specification's taxonomy so that statements can compare against them; the
code under scrutiny never constructs them. -/
inductive PipelineError
| syntaxError
| typeError
| evaluatorUnavailable
| schemaFormatError
| unsupportedOperationError
| missingOperandError
| missingKeyError
| invalidExponentError
deriving DecidableEq, Repr

/-- A string field that the worker feeds to `JSON.parse`: either the parse
throws (`malformed`) or it yields a value of the expected shape. -/
inductive JsonDoc (α : Type)
| malformed
| value (v : α)
deriving DecidableEq, Repr

/-- One operand of an operation (`Operand` in `index.ts`). `plaintextValue`
and `isRaw` are optional properties; the worker only tests their presence. -/
structure Operand where
  type : OperandTypes
  field : MapKey
  plaintextValue : Option Rat
  isRaw : Option Bool
deriving DecidableEq, Repr

/-- One operation of the schema (`OperationDTO` in `index.ts`). -/
structure Operation where
  type : OpCode
  operands : List Operand
  resultType : OperandTypes
deriving DecidableEq, Repr

/-- The parsed JSON schema (`JSONSchema` in `index.ts`). -/
structure JSONSchema where
  schemeType : SchemeType
  operations : List Operation
deriving DecidableEq, Repr

/-- A chunk of work (`ChunkToProcess`). `columnsData` is a JSON string
decoding to a map from column name to serialized ciphertext. -/
structure ChunkToProcess where
  id : Int
  length : Nat
  columnsData : JsonDoc (List (String × String))
deriving DecidableEq, Repr

/-- A payload (`PayloadToProcess`). `jsonSchema` is a JSON string decoding
to a `JSONSchema`. -/
structure PayloadToProcess where
  id : Int
  jsonSchema : JsonDoc JSONSchema
  chunk : ChunkToProcess
  publicKey : String
  galoisKeys : Option String
  relinKeys : Option String
deriving DecidableEq, Repr

/-- The websocket message carrying a payload (`PayloadMessage`). -/
structure PayloadMessage where
  payload : PayloadToProcess
  token : String
deriving DecidableEq, Repr

/-- The serialized wire representation produced by `.save()`, modelled as
an injective wrapper of the saved handle. -/
structure Wire where
  val : FHEVal
deriving DecidableEq, Repr

/-- JavaScript `Map.set`: replace the binding in place if the key is
present, otherwise append it. -/
def mapSet : List (MapKey × FHEVal) → MapKey → FHEVal → List (MapKey × FHEVal)
  | [], k, v => [(k, v)]
  | (k0, v0) :: rest, k, v =>
    if k0 = k then (k, v) :: rest else (k0, v0) :: mapSet rest k v

/-- JavaScript `Map.get`: the value bound to the key, if any. -/
def mapGet : List (MapKey × FHEVal) → MapKey → Option FHEVal
  | [], _ => none
  | (k0, v0) :: rest, k => if k0 = k then some v0 else mapGet rest k

/-- The operand map together with the chronological log of every value
ever inserted into it (also those later overwritten). -/
structure MapSt where
  map : List (MapKey × FHEVal)
  log : List FHEVal
deriving DecidableEq, Repr

/-- `Map.set` on the operand map, recording the inserted value in the log. -/
def stSet (st : MapSt) (k : MapKey) (v : FHEVal) : MapSt :=
  ⟨mapSet st.map k v, st.log ++ [v]⟩

/-- Step 3a of `processChunk`: for each chunk column `(field, data)`, load
the ciphertext and store it under the string key `d<field>`. -/
def loadColumns : List (String × String) → MapSt → MapSt
  | [], st => st
  | (f, d) :: rest, st =>
    loadColumns rest (stSet st (Sum.inl ("d" ++ f)) (FHEVal.cipherLoad d))

/-- Step 3b of `processChunk`, inner loop: for each operand of operation
`i` that has a `plaintextValue` property and no `isRaw` property, encode
`chunk.length` copies of the literal and store the plaintext under the
string key `p<i>`. -/
def encodeOpLiterals (len : Nat) (scheme : SchemeType) (i : Nat) :
    List Operand → MapSt → MapSt
  | [], st => st
  | od :: rest, st =>
    encodeOpLiterals len scheme i rest
      (match od.plaintextValue, od.isRaw with
       | some v, none =>
         stSet st (Sum.inl ("p" ++ toString i))
           (FHEVal.plainEncode scheme (List.replicate len v))
       | _, _ => st)

/-- Step 3b of `processChunk`, outer loop over the operations, carrying
the operation index used in the literal keys. -/
def encodeLiterals (len : Nat) (scheme : SchemeType) :
    Nat → List Operation → MapSt → MapSt
  | _, [], st => st
  | i, op :: rest, st =>
    encodeLiterals len scheme (i + 1) rest
      (encodeOpLiterals len scheme i op.operands st)

/-- An argument handed to a calculator: the operand's type tag and the
result of `operandsAndResultsMap.get(operand.field)` — `none` models the
JavaScript `undefined` that the worker's non-null assertion passes on. -/
structure CalcOperand where
  type : OperandTypes
  data : Option FHEVal
deriving DecidableEq, Repr

/-- The data of all arguments, if every one of them resolved. -/
def collectData : List CalcOperand → Option (List FHEVal)
  | [] => some []
  | a :: rest =>
    match a.data, collectData rest with
    | some d, some ds => some (d :: ds)
    | _, _ => none

/-- Modelled from the spec: `add` of `OperationsCalculator` (the file is
not under `src/`): left-to-right pairwise sum of the operands. An
unresolved (`undefined`) operand makes the underlying evaluator call
throw, modelled as `typeError`; key-prerequisite checks are not modelled
(no claim depends on them). -/
def add (args : List CalcOperand) : Except PipelineError FHEVal :=
  match collectData args with
  | none => Except.error PipelineError.typeError
  | some [] => Except.error PipelineError.typeError
  | some (d :: ds) =>
    Except.ok (ds.foldl (fun acc x => FHEVal.opNode OpCode.ADD acc x) d)

/-- Modelled from the spec: `subtract` of `OperationsCalculator` (not under
`src/`): left-to-right pairwise difference in the schema's operand order.
An unresolved operand is modelled as `typeError`. -/
def subtract (args : List CalcOperand) : Except PipelineError FHEVal :=
  match collectData args with
  | none => Except.error PipelineError.typeError
  | some [] => Except.error PipelineError.typeError
  | some (d :: ds) =>
    Except.ok (ds.foldl (fun acc x => FHEVal.opNode OpCode.SUBTRACT acc x) d)

/-- Modelled from the spec: `multiply` of `OperationsCalculator` (not under
`src/`): left-to-right pairwise product. An unresolved operand is modelled
as `typeError`; relinearization bookkeeping is not modelled. -/
def multiply (args : List CalcOperand) : Except PipelineError FHEVal :=
  match collectData args with
  | none => Except.error PipelineError.typeError
  | some [] => Except.error PipelineError.typeError
  | some (d :: ds) =>
    Except.ok (ds.foldl (fun acc x => FHEVal.opNode OpCode.MULTIPLY acc x) d)

/-- Modelled from the spec: `exponentiate` of `OperationsCalculator` (not
under `src/`): raises the base to a public exponent by repeated
multiplication; a negative or non-integer (including absent) exponent
fails with `InvalidExponentError`. An unresolved base is modelled as
`typeError`. -/
def exponentiate (base : Option FHEVal) (e? : Option Rat) :
    Except PipelineError FHEVal :=
  match e? with
  | none => Except.error PipelineError.invalidExponentError
  | some e =>
    if 0 ≤ e ∧ e.den = 1 then
      match base with
      | none => Except.error PipelineError.typeError
      | some b => Except.ok (FHEVal.powVal b e.num.toNat)
    else Except.error PipelineError.invalidExponentError

/-- The worker's argument construction for a calculator call:
`{type: operand.type, data: operandsAndResultsMap.get(operand.field)!}`. -/
def resolveOperands (m : List (MapKey × FHEVal)) (ods : List Operand) :
    List CalcOperand :=
  ods.map (fun od => CalcOperand.mk od.type (mapGet m od.field))

/-- One iteration of the evaluation loop (step 5 of `processChunk`):
dispatch on `operation.type`; a recognized kind stores its result under
the number key `i`, an unrecognized kind falls through the `switch` and
stores nothing. -/
def evalStep (st : MapSt) (i : Nat) (op : Operation) :
    Except PipelineError MapSt :=
  match op.type with
  | OpCode.ADD =>
    (add (resolveOperands st.map op.operands)).map
      (fun v => stSet st (Sum.inr (Int.ofNat i)) v)
  | OpCode.SUBTRACT =>
    (subtract (resolveOperands st.map op.operands)).map
      (fun v => stSet st (Sum.inr (Int.ofNat i)) v)
  | OpCode.MULTIPLY =>
    (multiply (resolveOperands st.map op.operands)).map
      (fun v => stSet st (Sum.inr (Int.ofNat i)) v)
  | OpCode.EXPONENTIATION =>
    match op.operands[0]?, op.operands[1]? with
    | some o0, some o1 =>
      (exponentiate (mapGet st.map o0.field) o1.plaintextValue).map
        (fun v => stSet st (Sum.inr (Int.ofNat i)) v)
    | _, _ => Except.error PipelineError.typeError
  | OpCode.other _ => Except.ok st

/-- The evaluation loop: run the operations in schema order, stopping at
the first error. The state at the point of failure is returned alongside
the error, since the insertion log up to that point is part of the run. -/
def runOps : Nat → List Operation → MapSt → MapSt × Option PipelineError
  | _, [], st => (st, none)
  | i, op :: rest, st =>
    match evalStep st i op with
    | Except.error e => (st, some e)
    | Except.ok st1 => runOps (i + 1) rest st1

/-- The observable outcome of one `processChunk` run: the returned value
or the thrown error, the chronological log of all map insertions, the
final contents of the operand map, the handles released by the cleanup
loop, and whether `FHEModule.deallocate` was invoked. -/
structure RunResult where
  result : Except PipelineError Wire
  inserted : List FHEVal
  finalMap : List (MapKey × FHEVal)
  released : List FHEVal
  deallocated : Bool

/-- `Except.isOk` as a plain boolean on run outcomes. -/
def runOk (e : Except PipelineError Wire) : Bool :=
  match e with
  | Except.ok _ => true
  | Except.error _ => false

/-- Shallow embedding of `processChunk`: parse the schema string, parse
the columns string, load the column ciphertexts, encode the literal
operands, evaluate the operations in order, serialize the map entry under
number key `operations.length - 1`, and only then run the cleanup loop
(release every value still in the map, call `FHEModule.deallocate`). Any
thrown error propagates immediately, skipping everything after it —
including the cleanup, which is not guarded by a `finally`. -/
def processChunk (chunk : ChunkToProcess) (payload : PayloadToProcess) :
    RunResult :=
  match payload.jsonSchema with
  | JsonDoc.malformed =>
    ⟨Except.error PipelineError.syntaxError, [], [], [], false⟩
  | JsonDoc.value schema =>
    match chunk.columnsData with
    | JsonDoc.malformed =>
      ⟨Except.error PipelineError.syntaxError, [], [], [], false⟩
    | JsonDoc.value cols =>
      match runOps 0 schema.operations
        (encodeLiterals chunk.length schema.schemeType 0 schema.operations
          (loadColumns cols ⟨[], []⟩)) with
      | (st2, some e) => ⟨Except.error e, st2.log, st2.map, [], false⟩
      | (st2, none) =>
        match mapGet st2.map
          (Sum.inr ((schema.operations.length : Int) - 1)) with
        | none =>
          ⟨Except.error PipelineError.typeError, st2.log, st2.map, [], false⟩
        | some v =>
          ⟨Except.ok ⟨v⟩, st2.log, st2.map, st2.map.map Prod.snd, true⟩

/-- Modelled from the spec: the fixed reward-interval duration
(`REWARD_TIMEOUT_MS` of `src/constants.js`, a file not under `src/`). The
claims use it only symbolically, so a representative concrete value is
chosen. -/
def REWARD_TIMEOUT_MS : Nat := 60000

/-- An externally visible action of the message handler: sending the
chunk's result to the server, or scheduling (`setTimeout`) the next
`REQUEST_CHUNK` after a delay. -/
inductive WorkerAction
| sendResult (chunkId : Int) (result : Wire) (token : String)
| scheduleRequest (delayMs : Nat)
deriving DecidableEq, Repr

/-- The incoming `event.data` of a websocket message: `none` models a
falsy (empty) string, `some JsonDoc.malformed` a non-empty string that
`JSON.parse` rejects, and `some (JsonDoc.value pm)` a parsed
`PayloadMessage`. -/
abbrev MessageData := Option (JsonDoc PayloadMessage)

/-- Shallow embedding of `processPayload`: on falsy data the `if` body is
skipped and only the timer is set; on unparseable data `JSON.parse`
throws, and since the handler has no `try`/`catch` the `setTimeout` line
is never reached; on a parsed payload a failing `processChunk` rejects
the awaited promise, again skipping both the result message and the
timer, while a successful one sends the result and sets the timer. -/
def processPayload (d : MessageData) : List WorkerAction :=
  match d with
  | none => [WorkerAction.scheduleRequest REWARD_TIMEOUT_MS]
  | some JsonDoc.malformed => []
  | some (JsonDoc.value pm) =>
    match (processChunk pm.payload.chunk pm.payload).result with
    | Except.error _ => []
    | Except.ok w =>
      [WorkerAction.sendResult pm.payload.chunk.id w pm.token,
       WorkerAction.scheduleRequest REWARD_TIMEOUT_MS]

/-- Whether incoming message data is a parsed server assignment. -/
def isAssignment (d : MessageData) : Bool :=
  match d with
  | some (JsonDoc.value _) => true
  | _ => false

/-- How many `setTimeout(requestPayload, ...)` calls handling this message
performs. -/
def schedulesOf (d : MessageData) : Nat :=
  (processPayload d).countP
    (fun a => match a with
      | WorkerAction.scheduleRequest _ => true
      | _ => false)

/-- State of the worker's request/response loop: whether the connection
has opened, how many chunk requests are outstanding (sent and not yet
answered by an assignment), how many reward timers are pending, and how
many `REQUEST_CHUNK` messages have been sent in total. -/
structure LoopState where
  opened : Bool
  outstanding : Nat
  pendingTimers : Nat
  requestsSent : Nat
deriving DecidableEq, Repr

/-- The initial loop state, before the websocket opens. -/
def initLoop : LoopState := ⟨false, 0, 0, 0⟩

/-- An event the worker reacts to: the websocket opening, a websocket
message arriving, or a pending reward timer firing. -/
inductive LoopEvent
| wsOpen
| wsMessage (d : MessageData)
| timerFire
deriving DecidableEq, Repr

/-- One step of the loop: `onopen` sends `REQUEST_CHUNK` immediately; a
message is handled by `processPayload`, answering one outstanding request
when it is an assignment and leaving the count unchanged otherwise; a
pending timer firing runs `requestPayload`, sending `REQUEST_CHUNK`.
Events that cannot occur in the given state (a second open, a message or
timer before any exists) leave the state unchanged. -/
def loopStep (s : LoopState) (e : LoopEvent) : LoopState :=
  match e with
  | LoopEvent.wsOpen =>
    if s.opened then s
    else
      { s with
        opened := true
        outstanding := s.outstanding + 1
        requestsSent := s.requestsSent + 1 }
  | LoopEvent.wsMessage d =>
    if s.opened then
      { s with
        outstanding :=
          if isAssignment d then s.outstanding - 1 else s.outstanding
        pendingTimers := s.pendingTimers + schedulesOf d }
    else s
  | LoopEvent.timerFire =>
    if s.pendingTimers = 0 then s
    else
      { s with
        pendingTimers := s.pendingTimers - 1
        outstanding := s.outstanding + 1
        requestsSent := s.requestsSent + 1 }

/-- Run the loop over a sequence of events. -/
def runLoop : LoopState → List LoopEvent → LoopState
  | s, [] => s
  | s, e :: rest => runLoop (loopStep s e) rest

/-- A trace in which the server follows the protocol: every message it
sends is a parsed assignment, and it only answers an outstanding request. -/
def goodTrace : LoopState → List LoopEvent → Bool
  | _, [] => true
  | s, e :: rest =>
    (match e with
     | LoopEvent.wsMessage d => isAssignment d && decide (1 ≤ s.outstanding)
     | _ => true) && goodTrace (loopStep s e) rest

/-- The error of a run outcome, if it is one. -/
def runErr (e : Except PipelineError Wire) : Option PipelineError :=
  match e with
  | Except.ok _ => none
  | Except.error x => some x

/- Helper lemmas about the operand map. -/

theorem mapGet_mapSet_of_ne (m : List (MapKey × FHEVal)) (k : MapKey)
    (v : FHEVal) (k1 : MapKey) (h : k ≠ k1) :
    mapGet (mapSet m k v) k1 = mapGet m k1 := by
  induction m with
  | nil => simp [mapSet, mapGet, h]
  | cons hd tl ih =>
    obtain ⟨k0, v0⟩ := hd
    by_cases hk : k0 = k
    · subst hk
      simp [mapSet, mapGet, h]
    · simp only [mapSet, if_neg hk, mapGet]
      by_cases hk1 : k0 = k1
      · simp [hk1]
      · simp [hk1, ih]

theorem loadColumns_map_inr (cols : List (String × String)) (st : MapSt)
    (n : Int) :
    mapGet (loadColumns cols st).map (Sum.inr n) =
      mapGet st.map (Sum.inr n) := by
  induction cols generalizing st with
  | nil => rfl
  | cons hd tl ih =>
    obtain ⟨f, d⟩ := hd
    rw [loadColumns, ih]
    exact mapGet_mapSet_of_ne _ _ _ _ (by simp)

theorem encodeOpLiterals_map_inr (len : Nat) (scheme : SchemeType) (i : Nat)
    (ods : List Operand) (st : MapSt) (n : Int) :
    mapGet (encodeOpLiterals len scheme i ods st).map (Sum.inr n) =
      mapGet st.map (Sum.inr n) := by
  induction ods generalizing st with
  | nil => rfl
  | cons od tl ih =>
    rw [encodeOpLiterals, ih]
    cases hp : od.plaintextValue with
    | none => cases od.isRaw <;> rfl
    | some v =>
      cases od.isRaw with
      | none =>
        exact mapGet_mapSet_of_ne _ _ _ _ (by simp)
      | some b => rfl

theorem encodeLiterals_map_inr (len : Nat) (scheme : SchemeType)
    (ops : List Operation) (i : Nat) (st : MapSt) (n : Int) :
    mapGet (encodeLiterals len scheme i ops st).map (Sum.inr n) =
      mapGet st.map (Sum.inr n) := by
  induction ops generalizing st i with
  | nil => rfl
  | cons op tl ih =>
    rw [encodeLiterals, ih, encodeOpLiterals_map_inr]

/-- The encoded plaintexts the literal pass produces for one operation's
operands, in operand order: one per operand that carries a
`plaintextValue` property and no `isRaw` property. -/
def opLiteralEncodes (len : Nat) (scheme : SchemeType)
    (ods : List Operand) : List FHEVal :=
  ods.filterMap
    (fun od =>
      match od.plaintextValue, od.isRaw with
      | some v, none =>
        some (FHEVal.plainEncode scheme (List.replicate len v))
      | _, _ => none)

/-- The encoded plaintexts the literal pass produces for a whole schema,
in schema order. -/
def literalEncodes (len : Nat) (scheme : SchemeType) :
    List Operation → List FHEVal
  | [] => []
  | op :: rest =>
    opLiteralEncodes len scheme op.operands ++ literalEncodes len scheme rest

theorem encodeOpLiterals_log (len : Nat) (scheme : SchemeType) (i : Nat)
    (ods : List Operand) (st : MapSt) :
    (encodeOpLiterals len scheme i ods st).log =
      st.log ++ opLiteralEncodes len scheme ods := by
  induction ods generalizing st with
  | nil => simp [encodeOpLiterals, opLiteralEncodes]
  | cons od tl ih =>
    rw [encodeOpLiterals, ih]
    cases hp : od.plaintextValue with
    | none =>
      cases od.isRaw <;>
        simp [opLiteralEncodes, List.filterMap_cons, hp]
    | some v =>
      cases hr : od.isRaw with
      | none =>
        simp [opLiteralEncodes, List.filterMap_cons, hp, hr, stSet]
      | some b =>
        simp [opLiteralEncodes, List.filterMap_cons, hp, hr]

theorem encodeLiterals_log (len : Nat) (scheme : SchemeType)
    (ops : List Operation) (i : Nat) (st : MapSt) :
    (encodeLiterals len scheme i ops st).log =
      st.log ++ literalEncodes len scheme ops := by
  induction ops generalizing st i with
  | nil => simp [encodeLiterals, literalEncodes]
  | cons op tl ih =>
    rw [encodeLiterals, ih, encodeOpLiterals_log, literalEncodes,
      List.append_assoc]

theorem collectData_of_member_none (ods : List Operand)
    (m : List (MapKey × FHEVal))
    (h : ∃ od ∈ ods, mapGet m od.field = none) :
    collectData (resolveOperands m ods) = none := by
  induction ods with
  | nil => simp at h
  | cons od tl ih =>
    obtain ⟨od0, hmem, hnone⟩ := h
    rcases List.mem_cons.mp hmem with heq | htl
    · subst heq
      simp [resolveOperands, collectData, hnone]
    · simp only [resolveOperands, List.map_cons, collectData]
      rw [show resolveOperands m tl =
        tl.map (fun od => CalcOperand.mk od.type (mapGet m od.field)) from rfl]
        at ih
      rw [ih ⟨od0, htl, hnone⟩]
      cases mapGet m od.field <;> rfl

theorem schedulesOf_le_one (d : MessageData) : schedulesOf d ≤ 1 := by
  cases d with
  | none => simp [schedulesOf, processPayload, List.countP, List.countP.go]
  | some md =>
    cases md with
    | malformed => simp [schedulesOf, processPayload, List.countP, List.countP.go]
    | value pm =>
      simp only [schedulesOf, processPayload]
      cases hr : (processChunk pm.payload.chunk pm.payload).result with
      | error e => simp [List.countP, List.countP.go]
      | ok w => simp [List.countP, List.countP.go]

/-- The inductive invariant of the request loop: at most one request or
pending reward timer in total, and nothing before the connection opens. -/
def LoopP (s : LoopState) : Prop :=
  s.outstanding + s.pendingTimers ≤ 1 ∧
    (s.opened = false → s.outstanding = 0 ∧ s.pendingTimers = 0)

theorem loopStep_inv (s : LoopState) (e : LoopEvent) (hP : LoopP s)
    (hg : ∀ d, e = LoopEvent.wsMessage d →
      isAssignment d = true ∧ 1 ≤ s.outstanding) :
    LoopP (loopStep s e) := by
  obtain ⟨h1, h2⟩ := hP
  cases e with
  | wsOpen =>
    by_cases ho : s.opened
    · simpa [loopStep, ho] using ⟨h1, h2⟩
    · have := h2 (by simpa using ho)
      constructor
      · simp [loopStep, ho]
        omega
      · simp [loopStep, ho]
  | wsMessage d =>
    obtain ⟨ha, hout⟩ := hg d rfl
    by_cases ho : s.opened
    · have hsch := schedulesOf_le_one d
      constructor
      · simp [loopStep, ho, ha]
        omega
      · simp [loopStep, ho]
    · exact ⟨by simpa [loopStep, ho] using h1, by simpa [loopStep, ho] using h2⟩
  | timerFire =>
    by_cases hp : s.pendingTimers = 0
    · exact ⟨by simpa [loopStep, hp] using h1, by simpa [loopStep, hp] using h2⟩
    · constructor
      · simp [loopStep, hp]
        omega
      · intro ho
        simp only [loopStep, if_neg hp] at ho
        exact absurd (h2 ho).2 hp

theorem runLoop_inv (evs : List LoopEvent) (s : LoopState) (hP : LoopP s)
    (hgood : goodTrace s evs = true) : LoopP (runLoop s evs) := by
  induction evs generalizing s with
  | nil => simpa [runLoop] using hP
  | cons e rest ih =>
    rw [runLoop]
    cases e with
    | wsOpen =>
      have hgood2 : goodTrace (loopStep s LoopEvent.wsOpen) rest = true := by
        simpa [goodTrace] using hgood
      exact ih _ (loopStep_inv s LoopEvent.wsOpen hP
        (by intro d hd; simp at hd)) hgood2
    | wsMessage d =>
      simp only [goodTrace, Bool.and_eq_true] at hgood
      obtain ⟨⟨ha, hout⟩, hrest⟩ := hgood
      refine ih _ (loopStep_inv s (LoopEvent.wsMessage d) hP ?_) hrest
      intro d2 hd
      cases hd
      exact ⟨ha, by simpa using hout⟩
    | timerFire =>
      have hgood2 : goodTrace (loopStep s LoopEvent.timerFire) rest = true := by
        simpa [goodTrace] using hgood
      exact ih _ (loopStep_inv s LoopEvent.timerFire hP
        (by intro d hd; simp at hd)) hgood2

/- Concrete inputs used by the claim witnesses and counterexamples. -/

/-- An operand that only references a field. -/
def fieldOperand (k : MapKey) : Operand :=
  ⟨OperandTypes.ARRAY, k, none, none⟩

/-- A literal operand carrying a `plaintextValue` and no `isRaw` property. -/
def literalOperand (q : Rat) : Operand :=
  ⟨OperandTypes.NUMBER, Sum.inl ("p0"), some q, none⟩

/-- A successful example run: two columns, one ADD over them. -/
def okChunk : ChunkToProcess :=
  ⟨1, 2, JsonDoc.value [("x", "ctx"), ("y", "cty")]⟩

/-- The schema of the successful example run. -/
def okSchema : JSONSchema :=
  ⟨SchemeType.BGV,
   [⟨OpCode.ADD, [fieldOperand (Sum.inl ("dx")), fieldOperand (Sum.inl ("dy"))],
     OperandTypes.ARRAY⟩]⟩

/-- The payload of the successful example run. -/
def okPayload : PayloadToProcess :=
  ⟨1, JsonDoc.value okSchema, okChunk, "pk", none, none⟩

/-- The websocket message delivering the successful example run. -/
def okMessage : PayloadMessage := ⟨okPayload, "tok"⟩

/-- The wire result of the successful example run. -/
def okWire : Wire :=
  ⟨FHEVal.opNode OpCode.ADD (FHEVal.cipherLoad "ctx")
    (FHEVal.cipherLoad "cty")⟩

/-- A schema with no operations at all. -/
def emptyOpsSchema : JSONSchema := ⟨SchemeType.BGV, []⟩

/-- A chunk with one column, used to exhibit an unreleased handle. -/
def oneColumnChunk : ChunkToProcess := ⟨2, 1, JsonDoc.value [("a", "cta")]⟩

/-- A payload whose run fails after inserting a handle: empty operation
list, so the final lookup dereferences `undefined`. -/
def emptyOpsPayload : PayloadToProcess :=
  ⟨2, JsonDoc.value emptyOpsSchema, oneColumnChunk, "pk", none, none⟩

/-- A websocket message whose chunk run fails (empty operation list). -/
def failingMessage3 : PayloadMessage :=
  ⟨⟨3, JsonDoc.value emptyOpsSchema, ⟨3, 1, JsonDoc.value [("b", "ctb")]⟩,
    "pk", none, none⟩, "tok3"⟩

/-- A websocket message whose chunk run fails (single operation of an
unrecognized kind, so index 0 holds no result). -/
def failingMessage8 : PayloadMessage :=
  ⟨⟨8, JsonDoc.value ⟨SchemeType.BGV, [⟨OpCode.other 5, [], OperandTypes.NONE⟩]⟩,
    ⟨8, 1, JsonDoc.value []⟩, "pk", none, none⟩, "tok8"⟩

/-- A chunk with no columns at all. -/
def emptyChunk : ChunkToProcess := ⟨4, 1, JsonDoc.value []⟩

/-- An ADD operation referencing a field that is in no map. -/
def missingFieldOp : Operation :=
  ⟨OpCode.ADD, [fieldOperand (Sum.inl ("x"))], OperandTypes.ARRAY⟩

/-- A payload whose single operation references an absent field. -/
def missingFieldPayload : PayloadToProcess :=
  ⟨4, JsonDoc.value ⟨SchemeType.BGV, [missingFieldOp]⟩, emptyChunk, "pk",
   none, none⟩

/-- A chunk used by the literal-encoding counterexample. -/
def litChunk : ChunkToProcess := ⟨5, 1, JsonDoc.value []⟩

/-- A schema whose single operation carries two distinct literal
operands, both encoded and stored under the same key `p0`. -/
def twoLiteralsSchema : JSONSchema :=
  ⟨SchemeType.BGV,
   [⟨OpCode.ADD, [literalOperand 1, literalOperand 2], OperandTypes.ARRAY⟩]⟩

/-- A payload carrying `twoLiteralsSchema`. -/
def twoLiteralsPayload : PayloadToProcess :=
  ⟨5, JsonDoc.value twoLiteralsSchema, litChunk, "pk", none, none⟩

/-- A chunk used by the schema-parsing counterexample. -/
def parseChunk : ChunkToProcess := ⟨6, 1, JsonDoc.value []⟩

/-- A payload whose schema string is not valid JSON. -/
def malformedSchemaPayload : PayloadToProcess :=
  ⟨6, JsonDoc.malformed, parseChunk, "pk", none, none⟩

/-- A payload whose schema has a single operation of an unrecognized kind. -/
def unknownKindPayload : PayloadToProcess :=
  ⟨6, JsonDoc.value ⟨SchemeType.BGV, [⟨OpCode.other 7, [], OperandTypes.NONE⟩]⟩,
   parseChunk, "pk", none, none⟩

/-- The event trace in which the server sends an empty (falsy) message:
open, empty message, reward timer fires. -/
def emptyMessageTrace : List LoopEvent :=
  [LoopEvent.wsOpen, LoopEvent.wsMessage none, LoopEvent.timerFire]

/-- A protocol-conforming event trace: open, one assignment answering the
request, reward timer fires. -/
def assignmentTrace : List LoopEvent :=
  [LoopEvent.wsOpen, LoopEvent.wsMessage (some (JsonDoc.value okMessage)),
   LoopEvent.timerFire]

/-- An EXPONENTIATE operation whose exponent operand is the negative
literal -2. -/
def badExponentOp : Operation :=
  ⟨OpCode.EXPONENTIATION,
   [fieldOperand (Sum.inl ("dx")),
    ⟨OperandTypes.NUMBER, Sum.inl ("e"), some (-2), none⟩],
   OperandTypes.ARRAY⟩

/-- A chunk used by the empty-schema witness. -/
def c10Chunk : ChunkToProcess := ⟨10, 1, JsonDoc.value [("z", "ctz")]⟩

/-- A payload with an empty operation list, for the empty-schema witness. -/
def c10Payload : PayloadToProcess :=
  ⟨10, JsonDoc.value emptyOpsSchema, c10Chunk, "pk", none, none⟩

/- Claim theorems. -/

/-- Claim C2: for every schema with a non-empty operation list of length
N, the value `processChunk` returns is exactly the serialization (save)
of the OperandValue stored under the result key of the last operation,
`OperationResult(N-1)`, after all N operations have been evaluated in
schema order: whenever the run returns a wire value `w`, the final
operand map binds the number key `N - 1` to exactly the handle `w`
serializes. -/
theorem C2_result_is_last_operation (chunk : ChunkToProcess)
    (payload : PayloadToProcess) (schema : JSONSchema) (w : Wire)
    (hs : payload.jsonSchema = JsonDoc.value schema)
    (hne : schema.operations ≠ [])
    (hok : (processChunk chunk payload).result = Except.ok w) :
    mapGet (processChunk chunk payload).finalMap
      (Sum.inr ((schema.operations.length : Int) - 1)) = some w.val := by
  revert hok
  unfold processChunk
  rw [hs]
  split
  · rename_i heq
    exact absurd heq (by simp)
  · rename_i schema2 heq
    cases JsonDoc.value.inj heq
    split
    · intro hok
      exact Except.noConfusion hok
    · split
      · intro hok
        exact Except.noConfusion hok
      · split
        · intro hok
          exact Except.noConfusion hok
        · rename_i st2 hrun v hget
          intro hok
          have hok2 : Except.ok (⟨v⟩ : Wire) = Except.ok w := hok
          have hwv : w.val = v := by
            rw [← Except.ok.inj hok2]
          rw [hwv]
          exact hget

/-- Claim C2 witness: the successful example run returns the ADD result,
and the final map binds key 0 to it. -/
theorem C2_result_is_last_operation_witness :
    mapGet (processChunk okChunk okPayload).finalMap
      (Sum.inr ((okSchema.operations.length : Int) - 1)) = some okWire.val :=
  C2_result_is_last_operation okChunk okPayload okSchema okWire rfl
    (by decide) rfl

/-- Claim C10: when the parsed schema's operation list is empty,
`processChunk` does not return a serialized result: the lookup of the
final result key (number key `-1`) yields no value and the run fails
instead of submitting anything. -/
theorem C10_empty_schema_fails (chunk : ChunkToProcess)
    (payload : PayloadToProcess) (schema : JSONSchema)
    (hs : payload.jsonSchema = JsonDoc.value schema)
    (hemp : schema.operations = []) :
    runOk (processChunk chunk payload).result = false ∧
    mapGet (processChunk chunk payload).finalMap (Sum.inr (-1)) = none := by
  unfold processChunk
  rw [hs]
  split
  · rename_i heq
    exact absurd heq (by simp)
  · rename_i schema2 heq
    cases JsonDoc.value.inj heq
    rw [hemp]
    split
    · exact ⟨rfl, rfl⟩
    · rename_i cols hcols
      split
      · rename_i st2 e hrun
        have : (MapSt.mk (loadColumns cols ⟨[], []⟩).map
            (loadColumns cols ⟨[], []⟩).log, (none : Option PipelineError)) =
            (st2, some e) := by
          rw [← hrun]
          rfl
        exact absurd (congrArg Prod.snd this) (by simp)
      · rename_i st2 hrun
        have hst : st2 = loadColumns cols ⟨[], []⟩ := by
          have h2 := congrArg Prod.fst hrun
          simpa [runOps, encodeLiterals] using h2.symm
        split
        · subst hst
          refine ⟨rfl, ?_⟩
          rw [loadColumns_map_inr]
          rfl
        · rename_i v hget
          subst hst
          rw [loadColumns_map_inr] at hget
          exact absurd hget (by simp [mapGet])

/-- Claim C10 witness: a concrete empty-schema run fails and binds
nothing to number key `-1`. -/
theorem C10_empty_schema_fails_witness :
    runOk (processChunk c10Chunk c10Payload).result = false ∧
    mapGet (processChunk c10Chunk c10Payload).finalMap (Sum.inr (-1)) =
      none :=
  C10_empty_schema_fails c10Chunk c10Payload emptyOpsSchema rfl rfl

/-- Claim C9: for every EXPONENTIATE operation whose exponent operand is
a negative or non-integer value, evaluation fails with
`InvalidExponentError`, deterministically (the evaluation step is a pure
function of its inputs, so the same input always yields this error),
regardless of how the base operand resolves. -/
theorem C9_invalid_exponent (st : MapSt) (i : Nat) (op : Operation)
    (o0 o1 : Operand) (e : Rat)
    (ht : op.type = OpCode.EXPONENTIATION)
    (h0 : op.operands[0]? = some o0)
    (h1 : op.operands[1]? = some o1)
    (he : o1.plaintextValue = some e)
    (hbad : e < 0 ∨ e.den ≠ 1) :
    evalStep st i op = Except.error PipelineError.invalidExponentError := by
  have hneg : ¬(0 ≤ e ∧ e.den = 1) := by
    rcases hbad with hlt | hden
    · intro hc
      exact absurd hc.1 (not_le.mpr hlt)
    · intro hc
      exact hden hc.2
  simp only [evalStep, ht, h0, h1]
  rw [show exponentiate (mapGet st.map o0.field) o1.plaintextValue =
      Except.error PipelineError.invalidExponentError from by
    rw [he]
    simp only [exponentiate, if_neg hneg]]
  rfl

/-- Claim C9 witness: a concrete EXPONENTIATE operation with exponent
literal -2 fails with `InvalidExponentError`. -/
theorem C9_invalid_exponent_witness :
    evalStep ⟨[], []⟩ 0 badExponentOp =
      Except.error PipelineError.invalidExponentError :=
  C9_invalid_exponent ⟨[], []⟩ 0 badExponentOp
    (fieldOperand (Sum.inl ("dx")))
    ⟨OperandTypes.NUMBER, Sum.inl ("e"), some (-2), none⟩ (-2)
    rfl rfl rfl rfl (Or.inl (by norm_num))

/-- Claim C1 counterexample: a run with one column and an empty operation
list inserts the column's ciphertext handle into the operand map, then
fails at the final result lookup. Because cleanup is not guarded by a
`finally`, the inserted handle is never released and
`FHEModule.deallocate` is never invoked — refuting the claim that every
inserted handle is released and the context torn down before every run
ends, including error exits. -/
theorem C1_cleanup_counterexample :
    ¬((∀ v ∈ (processChunk oneColumnChunk emptyOpsPayload).inserted,
        v ∈ (processChunk oneColumnChunk emptyOpsPayload).released) ∧
      (processChunk oneColumnChunk emptyOpsPayload).deallocated = true) := by
  decide

/-- Claim C1 amended: cleanup runs only on success. `FHEModule.deallocate`
is invoked exactly when the run returns a result; on success every
OperandValue still present in the operand map at the end of the run is
released, and on error exits the release loop does not run at all
(nothing is released). Moreover only values still in the map are ever
released, so handles overwritten in the map are never released. -/
theorem C1_cleanup_only_on_success (chunk : ChunkToProcess)
    (payload : PayloadToProcess) :
    (processChunk chunk payload).deallocated =
      runOk (processChunk chunk payload).result ∧
    (runOk (processChunk chunk payload).result = true →
      ∀ v ∈ (processChunk chunk payload).finalMap.map Prod.snd,
        v ∈ (processChunk chunk payload).released) ∧
    (runOk (processChunk chunk payload).result = false →
      (processChunk chunk payload).released = []) ∧
    ∀ v ∈ (processChunk chunk payload).released,
      v ∈ (processChunk chunk payload).finalMap.map Prod.snd := by
  unfold processChunk
  split
  · exact ⟨rfl, fun h => Bool.noConfusion h, fun _ => rfl,
      fun v hv => absurd hv (List.not_mem_nil v)⟩
  · split
    · exact ⟨rfl, fun h => Bool.noConfusion h, fun _ => rfl,
        fun v hv => absurd hv (List.not_mem_nil v)⟩
    · split
      · exact ⟨rfl, fun h => Bool.noConfusion h, fun _ => rfl,
          fun v hv => absurd hv (List.not_mem_nil v)⟩
      · split
        · exact ⟨rfl, fun h => Bool.noConfusion h, fun _ => rfl,
            fun v hv => absurd hv (List.not_mem_nil v)⟩
        · exact ⟨rfl, fun _ v hv => hv, fun h => Bool.noConfusion h,
            fun v hv => hv⟩

/-- Claim C1 amended witness: on the successful example run the ADD
result remaining in the map is released, and on the failing example run
nothing is released. -/
theorem C1_cleanup_only_on_success_witness :
    okWire.val ∈ (processChunk okChunk okPayload).released ∧
    (processChunk oneColumnChunk emptyOpsPayload).released = [] :=
  ⟨(C1_cleanup_only_on_success okChunk okPayload).2.1 (by decide)
     okWire.val (by decide),
   (C1_cleanup_only_on_success oneColumnChunk emptyOpsPayload).2.2.1
     (by decide)⟩

/-- Claim C3 counterexample: a chunk whose evaluation fails (empty
operation list) makes `processPayload` perform no action at all — in
particular it does not schedule the reward-interval wait and never issues
the next `REQUEST_CHUNK`, refuting the claim that the worker still waits
and requests after a pipeline failure. -/
theorem C3_failure_stalls_loop_counterexample :
    runOk (processChunk failingMessage3.payload.chunk
      failingMessage3.payload).result = false ∧
    processPayload (some (JsonDoc.value failingMessage3)) = [] := by
  decide

/-- Claim C3 amended: if evaluating a chunk fails, no result message is
sent for that chunk, and the worker also does not schedule the
reward-interval wait or the next `REQUEST_CHUNK`: the rejected promise
aborts the handler before the `setTimeout` line, so the loop stalls. -/
theorem C3_failure_sends_nothing_and_stops (pm : PayloadMessage)
    (h : runOk (processChunk pm.payload.chunk pm.payload).result = false) :
    processPayload (some (JsonDoc.value pm)) = [] := by
  cases hr : (processChunk pm.payload.chunk pm.payload).result with
  | error e => simp [processPayload, hr]
  | ok w =>
    rw [hr] at h
    simp [runOk] at h

/-- Claim C3 amended witness: the concrete failing message produces no
worker action. -/
theorem C3_failure_sends_nothing_and_stops_witness :
    processPayload (some (JsonDoc.value failingMessage3)) = [] :=
  C3_failure_sends_nothing_and_stops failingMessage3 (by decide)

/-- Claim C8 counterexample: after the no-submission fallthrough on a
failed chunk, the worker does not wait the reward interval and issues no
next `REQUEST_CHUNK`: the handler performs no action at all, refuting the
failure half of the claim. -/
theorem C8_no_wait_on_failure_counterexample :
    runOk (processChunk failingMessage8.payload.chunk
      failingMessage8.payload).result = false ∧
    processPayload (some (JsonDoc.value failingMessage8)) = [] := by
  decide

/-- Claim C8 amended: after successfully submitting a chunk's result, the
worker schedules the next `REQUEST_CHUNK` after exactly the fixed
reward-interval duration; on failure nothing is scheduled at all. -/
theorem C8_reward_interval_after_success (pm : PayloadMessage) (w : Wire)
    (h : (processChunk pm.payload.chunk pm.payload).result = Except.ok w) :
    processPayload (some (JsonDoc.value pm)) =
      [WorkerAction.sendResult pm.payload.chunk.id w pm.token,
       WorkerAction.scheduleRequest REWARD_TIMEOUT_MS] := by
  simp [processPayload, h]

/-- Claim C8 amended witness: the successful example message sends its
result and schedules the next request after the reward interval. -/
theorem C8_reward_interval_after_success_witness :
    processPayload (some (JsonDoc.value okMessage)) =
      [WorkerAction.sendResult okMessage.payload.chunk.id okWire
        okMessage.token,
       WorkerAction.scheduleRequest REWARD_TIMEOUT_MS] :=
  C8_reward_interval_after_success okMessage okWire rfl

/-- Claim C4 counterexample: an operation referencing the absent field
`"x"` does not fail with `MissingOperandError`; the unresolved operand
flows into the calculator and the run fails with the `TypeError` of a
dereferenced `undefined` instead. -/
theorem C4_missing_operand_counterexample :
    runErr (processChunk emptyChunk missingFieldPayload).result =
      some PipelineError.typeError ∧
    runErr (processChunk emptyChunk missingFieldPayload).result ≠
      some PipelineError.missingOperandError := by
  decide

/-- Claim C4 amended: resolving an absent field raises no error at all —
`Map.get` yields `undefined`, which the worker's non-null assertion
passes to the calculator, where the failure surfaces as a `TypeError`
(shown here for the ADD dispatch). No `MissingOperandError` exists in
the code. -/
theorem C4_missing_operand_type_error (st : MapSt) (i : Nat)
    (op : Operation) (ht : op.type = OpCode.ADD)
    (h : ∃ od ∈ op.operands, mapGet st.map od.field = none) :
    evalStep st i op = Except.error PipelineError.typeError := by
  have hc := collectData_of_member_none op.operands st.map h
  simp only [evalStep, ht, add, hc]
  rfl

/-- Claim C4 amended witness: the concrete missing-field ADD operation
evaluates to the `TypeError` outcome. -/
theorem C4_missing_operand_type_error_witness :
    evalStep ⟨[], []⟩ 0 missingFieldOp =
      Except.error PipelineError.typeError :=
  C4_missing_operand_type_error ⟨[], []⟩ 0 missingFieldOp rfl
    ⟨fieldOperand (Sum.inl ("x")), by decide, rfl⟩

theorem evalStep_log (st : MapSt) (i : Nat) (op : Operation) (st1 : MapSt)
    (h : evalStep st i op = Except.ok st1) : st.log <+: st1.log := by
  cases hop : op.type with
  | ADD =>
    simp only [evalStep, hop] at h
    cases ha : add (resolveOperands st.map op.operands) with
    | error e =>
      rw [ha] at h
      exact Except.noConfusion h
    | ok v =>
      rw [ha] at h
      rw [← Except.ok.inj h]
      exact List.prefix_append st.log [v]
  | SUBTRACT =>
    simp only [evalStep, hop] at h
    cases ha : subtract (resolveOperands st.map op.operands) with
    | error e =>
      rw [ha] at h
      exact Except.noConfusion h
    | ok v =>
      rw [ha] at h
      rw [← Except.ok.inj h]
      exact List.prefix_append st.log [v]
  | MULTIPLY =>
    simp only [evalStep, hop] at h
    cases ha : multiply (resolveOperands st.map op.operands) with
    | error e =>
      rw [ha] at h
      exact Except.noConfusion h
    | ok v =>
      rw [ha] at h
      rw [← Except.ok.inj h]
      exact List.prefix_append st.log [v]
  | EXPONENTIATION =>
    simp only [evalStep, hop] at h
    cases h0 : op.operands[0]? with
    | none =>
      rw [h0] at h
      exact Except.noConfusion h
    | some o0 =>
      rw [h0] at h
      cases h1 : op.operands[1]? with
      | none =>
        rw [h1] at h
        exact Except.noConfusion h
      | some o1 =>
        rw [h1] at h
        dsimp only at h
        cases he : exponentiate (mapGet st.map o0.field) o1.plaintextValue with
        | error e =>
          rw [he] at h
          exact Except.noConfusion h
        | ok v =>
          rw [he] at h
          rw [← Except.ok.inj h]
          exact List.prefix_append st.log [v]
  | other n =>
    simp only [evalStep, hop, Except.ok.injEq] at h
    rw [h]

theorem runOps_log (ops : List Operation) (i : Nat) (st : MapSt) :
    st.log <+: (runOps i ops st).1.log := by
  induction ops generalizing i st with
  | nil => exact List.prefix_refl _
  | cons op rest ih =>
    rw [runOps]
    cases he : evalStep st i op with
    | error e => exact List.prefix_refl _
    | ok st1 =>
      exact List.IsPrefix.trans (evalStep_log st i op st1 he) (ih (i + 1) st1)

/-- Claim C5 counterexample: in a run whose single operation carries the
two distinct literal operands 1 and 2, both are encoded (both encodings
appear in the insertion log) but they are stored under the same key `p0`;
the second overwrites the first, so the first literal's encoding is under
no key of the final map at all — refuting the claim that distinct literal
operands are stored under distinct keys. -/
theorem C5_literal_keys_counterexample :
    FHEVal.plainEncode SchemeType.BGV [1] ∈
      (processChunk litChunk twoLiteralsPayload).inserted ∧
    FHEVal.plainEncode SchemeType.BGV [2] ∈
      (processChunk litChunk twoLiteralsPayload).inserted ∧
    FHEVal.plainEncode SchemeType.BGV [1] ∉
      (processChunk litChunk twoLiteralsPayload).finalMap.map Prod.snd := by
  decide

/-- Claim C5 amended: every literal operand occurrence is encoded eagerly,
exactly once per occurrence (not lazily and not cached): the literal
pass's insertion log is exactly one encoding per literal occurrence in
schema order, and that whole pass is embedded unchanged at the start of
the run's insertion log. The storage key is `p<operationIndex>`, derived
from the containing operation's index only, so literal operands within
one operation share a key (the counterexample shows the overwrite). -/
theorem C5_literal_encoding_eager_per_occurrence (chunk : ChunkToProcess)
    (payload : PayloadToProcess) (schema : JSONSchema)
    (cols : List (String × String))
    (hs : payload.jsonSchema = JsonDoc.value schema)
    (hc : chunk.columnsData = JsonDoc.value cols) :
    (encodeLiterals chunk.length schema.schemeType 0 schema.operations
        (loadColumns cols ⟨[], []⟩)).log =
      (loadColumns cols ⟨[], []⟩).log ++
        literalEncodes chunk.length schema.schemeType schema.operations ∧
    (encodeLiterals chunk.length schema.schemeType 0 schema.operations
        (loadColumns cols ⟨[], []⟩)).log <+:
      (processChunk chunk payload).inserted := by
  refine ⟨encodeLiterals_log _ _ _ _ _, ?_⟩
  unfold processChunk
  rw [hs]
  split
  · rename_i heq
    exact absurd heq (by simp)
  · rename_i schema2 heq
    cases JsonDoc.value.inj heq
    split
    · rename_i heq2
      rw [hc] at heq2
      exact absurd heq2 (by simp)
    · rename_i cols2 heq2
      rw [hc] at heq2
      cases JsonDoc.value.inj heq2
      split
      · rename_i st2 e hrun
        have h := runOps_log schema.operations 0
          (encodeLiterals chunk.length schema.schemeType 0 schema.operations
            (loadColumns cols ⟨[], []⟩))
        rw [hrun] at h
        exact h
      · rename_i st2 hrun
        have h := runOps_log schema.operations 0
          (encodeLiterals chunk.length schema.schemeType 0 schema.operations
            (loadColumns cols ⟨[], []⟩))
        rw [hrun] at h
        split
        · exact h
        · exact h

/-- Claim C5 amended witness: the two-literal example's literal pass logs
exactly the two encodings, and they open the run's insertion log. -/
theorem C5_literal_encoding_eager_per_occurrence_witness :
    (encodeLiterals litChunk.length twoLiteralsSchema.schemeType 0
        twoLiteralsSchema.operations (loadColumns [] ⟨[], []⟩)).log =
      (loadColumns [] ⟨[], []⟩).log ++
        literalEncodes litChunk.length twoLiteralsSchema.schemeType
          twoLiteralsSchema.operations ∧
    (encodeLiterals litChunk.length twoLiteralsSchema.schemeType 0
        twoLiteralsSchema.operations (loadColumns [] ⟨[], []⟩)).log <+:
      (processChunk litChunk twoLiteralsPayload).inserted :=
  C5_literal_encoding_eager_per_occurrence litChunk twoLiteralsPayload
    twoLiteralsSchema [] rfl rfl

/-- Claim C6 counterexample: a malformed schema string fails with the
JSON parser's `SyntaxError`, not with `SchemaFormatError`; and a schema
whose single operation has the unrecognized kind 7 does not fail with
`UnsupportedOperationError` — the operation is silently skipped and the
run instead fails with the `TypeError` of the missing final result. -/
theorem C6_parse_errors_counterexample :
    runErr (processChunk parseChunk malformedSchemaPayload).result =
      some PipelineError.syntaxError ∧
    runErr (processChunk parseChunk malformedSchemaPayload).result ≠
      some PipelineError.schemaFormatError ∧
    runErr (processChunk parseChunk unknownKindPayload).result ≠
      some PipelineError.unsupportedOperationError ∧
    runErr (processChunk parseChunk unknownKindPayload).result =
      some PipelineError.typeError := by
  decide

/-- Claim C6 amended: a schema string that is not valid JSON fails with
the JavaScript `SyntaxError` of `JSON.parse` (no `SchemaFormatError`
class exists); a structurally invalid but JSON-valid schema is not
rejected at parse time (the cast is unchecked); and an operation whose
kind is not one of the four recognized kinds is silently skipped by the
`switch` (no `UnsupportedOperationError`), leaving the map unchanged. -/
theorem C6_syntax_error_and_silent_skip :
    (∀ chunk payload,
      payload.jsonSchema = (JsonDoc.malformed : JsonDoc JSONSchema) →
      (processChunk chunk payload).result =
        Except.error PipelineError.syntaxError) ∧
    (∀ (st : MapSt) (i : Nat) (op : Operation) (n : Int),
      op.type = OpCode.other n → evalStep st i op = Except.ok st) := by
  constructor
  · intro chunk payload h
    unfold processChunk
    rw [h]
  · intro st i op n h
    simp only [evalStep, h]

/-- Claim C6 amended witness: the malformed-schema payload yields the
`SyntaxError` outcome, and the unrecognized-kind operation is a no-op. -/
theorem C6_syntax_error_and_silent_skip_witness :
    (processChunk parseChunk malformedSchemaPayload).result =
      Except.error PipelineError.syntaxError ∧
    evalStep ⟨[], []⟩ 0 ⟨OpCode.other 7, [], OperandTypes.NONE⟩ =
      Except.ok ⟨[], []⟩ :=
  ⟨C6_syntax_error_and_silent_skip.1 parseChunk malformedSchemaPayload rfl,
   C6_syntax_error_and_silent_skip.2 ⟨[], []⟩ 0
     ⟨OpCode.other 7, [], OperandTypes.NONE⟩ 7 rfl⟩

/-- Claim C7 counterexample: the worker does send `REQUEST_CHUNK` on
open, but after a message with empty (falsy) data — which is not a server
assignment — the handler still schedules the reward timer, and when it
fires a second `REQUEST_CHUNK` goes out: two requests are outstanding
although no assignment ever arrived, refuting the at-most-one-outstanding
claim over all reachable states. -/
theorem C7_double_request_counterexample :
    isAssignment none = false ∧
    (runLoop initLoop emptyMessageTrace).outstanding = 2 ∧
    (runLoop initLoop emptyMessageTrace).requestsSent = 2 := by
  decide

/-- Claim C7 amended: the worker sends `REQUEST_CHUNK` immediately upon
connection open, and a later `REQUEST_CHUNK` is sent only when a reward
timer fires, which requires some server message to have been handled
first. Provided every server message is a parsed assignment answering an
outstanding request, at most one chunk request is outstanding in every
reachable state; a non-assignment (empty) message breaks this, as the
counterexample shows. -/
theorem C7_single_request_for_protocol_server :
    (loopStep initLoop LoopEvent.wsOpen).requestsSent = 1 ∧
    ∀ evs : List LoopEvent, goodTrace initLoop evs = true →
      (runLoop initLoop evs).outstanding ≤ 1 := by
  constructor
  · rfl
  · intro evs hgood
    have h := runLoop_inv evs initLoop
      ⟨by decide, fun _ => ⟨rfl, rfl⟩⟩ hgood
    exact le_trans (Nat.le_add_right _ _) h.1

/-- Claim C7 amended witness: on the protocol-conforming example trace
(open, one assignment, timer), at most one request is outstanding. -/
theorem C7_single_request_for_protocol_server_witness :
    goodTrace initLoop assignmentTrace = true ∧
    (runLoop initLoop assignmentTrace).outstanding ≤ 1 :=
  ⟨by decide,
   C7_single_request_for_protocol_server.2 assignmentTrace (by decide)⟩
